import Mathlib

/-!
Verification of the djs-forge interaction-utility core:
InteractionRouter, CooldownManager, Paginator and ConfirmationManager.

JavaScript strings are modelled as lists of characters (`JStr`), JS `Map`s
as association lists with unique keys, the wall clock as an explicit `now`
parameter, and thrown errors as `Except` values.  Handlers are identified
by numeric tags; invoking a handler is recorded in the result rather than
executed as an effect.
-/

/-- JS string, as a list of characters. -/
abbrev JStr := List Char

/-- Parameter object passed to a route handler: JS object whose property
values may be `undefined` (`none`). -/
abbrev Params := List (JStr × Option JStr)

/-- Result of a successful JS regex match: the positional captures
`match[1], match[2], ...` (a capture that did not participate is `none`),
and the named-group object `match.groups` (`none` when the regex declares
no named groups at all). -/
structure MatchRes where
  positional : List (Option JStr)
  groups : Option Params
deriving Repr, DecidableEq

/-- Split a pattern string at every `*` wildcard, keeping the literal
segments (the model of building `^seg0(.+)seg1(.+)...segk$` out of the
escaped pattern in `InteractionRouter._register`). -/
def splitStar : JStr → List JStr
  | [] => [[]]
  | c :: cs =>
    if c = '*' then [] :: splitStar cs
    else
      match splitStar cs with
      | [] => [[c]]
      | seg :: rest => (c :: seg) :: rest

/-- JS `.` in a regex without the `s` flag: any character except the
ECMAScript line terminators LF, CR, U+2028 and U+2029.  The `(.+)` groups
built by `_register` can only capture characters of this class. -/
def jsDot (c : Char) : Bool :=
  !(c = '\n' || c = '\r' || c.toNat = 0x2028 || c.toNat = 0x2029)

/-- One backtracking step of greedy matching for a leading `(.+)` followed
by the literal `lit` and then (via `next`) the rest of the pattern: try the
capture `t.take n` for decreasing `n` (greedy, longest first, at least one
character), requiring every captured character to match the JS dot (no
line terminators) and `lit` to follow right after the capture. -/
def globTry (next : JStr → Option (List JStr)) (lit : JStr) (t : JStr) : Nat → Option (List JStr)
  | 0 => none
  | n + 1 =>
    let rem := t.drop (n + 1)
    if (t.take (n + 1)).all jsDot && lit.isPrefixOf rem then
      match next (rem.drop lit.length) with
      | some caps => some (t.take (n + 1) :: caps)
      | none => globTry next lit t n
    else globTry next lit t n

/-- Greedy anchored matching of `(.+)lit1(.+)lit2...(.+)litk$` against `t`
(`lits = [lit1, ..., litk]`), returning the captured substrings; this is
the JS greedy semantics of the `(.+)` groups built by `_register`. -/
def globCaps : List JStr → JStr → Option (List JStr)
  | [], t => if t.isEmpty then some [] else none
  | lit :: lits, t => globTry (fun u => globCaps lits u) lit t t.length

/-- Full-string match of the compiled string pattern with literal segments
`segs` (segments are separated by `*` wildcards) against `s`; models
`^l0(.+)l1...(.+)lk$`.  A pattern without `*` has a single segment and
matches by full-string equality. -/
def globExec (segs : List JStr) (s : JStr) : Option (List JStr) :=
  match segs with
  | [] => if s.isEmpty then some [] else none
  | l0 :: lits =>
    if l0.isPrefixOf s then globCaps lits (s.drop l0.length)
    else none

/-- A compiled matcher: either a compiled string pattern (exact or glob),
or a raw `RegExp` supplied by the caller, modelled as an arbitrary match
function. -/
inductive Compiled where
  | strPat (segs : List JStr)
  | raw (exec : JStr → Option MatchRes)

/-- Run a compiled matcher against a customId (models
`customId.match(route.compiled)`). -/
def Compiled.exec : Compiled → JStr → Option MatchRes
  | .strPat segs, s => (globExec segs s).map (fun caps => ⟨caps.map some, none⟩)
  | .raw f, s => f s

/-- One registered route: compiled matcher, handler tag and the
single-shot flag (`InteractionRouter._routes` entries). -/
structure Route where
  compiled : Compiled
  handler : Nat
  once : Bool

/-- Build the route record for a string pattern, as `_register` compiles
it. -/
def mkStrRoute (p : JStr) (h : Nat) (o : Bool) : Route :=
  ⟨.strPat (splitStar p), h, o⟩

/-- Router state: ordered route list plus optional fallback handler tag. -/
structure Router where
  routes : List Route
  fallback : Option Nat

/-- Look up a property of a JS object (`none` = property absent). -/
def lookupProp (ps : Params) (k : JStr) : Option (Option JStr) :=
  (ps.find? (fun q => q.1 = k)).map Prod.snd

/-- JS falsiness of `params.wildcard`: absent property, `undefined` value,
or empty string. -/
def jsFalsy : Option (Option JStr) → Bool
  | none => true
  | some none => true
  | some (some v) => v.isEmpty

/-- Set a property on a JS object (overwrite in place if present, append
otherwise). -/
def setProp (ps : Params) (k : JStr) (v : Option JStr) : Params :=
  if ps.any (fun q => q.1 = k) then
    ps.map (fun q => if q.1 = k then (k, v) else q)
  else ps ++ [(k, v)]

/-- The params object built in `InteractionRouter.handle`:
`const params = match.groups ?? {};`
`if (match[1] !== undefined && !params.wildcard) params.wildcard = match[1];` -/
def mkParams (m : MatchRes) : Params :=
  let params := m.groups.getD []
  match m.positional.head? with
  | some (some w) =>
    if jsFalsy (lookupProp params (['w','i','l','d','c','a','r','d'])) then
      setProp params (['w','i','l','d','c','a','r','d']) (some w)
    else params
  | _ => params

/-- The route-scanning loop of `handle`: first matching route wins; if it
is a `once` route it is spliced out before its handler runs.  Returns the
invoked handler tag with its params, and the route list after the splice. -/
def handleLoop : List Route → JStr → Option ((Nat × Params) × List Route)
  | [], _ => none
  | r :: rs, cid =>
    match r.compiled.exec cid with
    | some m => some ((r.handler, mkParams m), if r.once then rs else r :: rs)
    | none =>
      match handleLoop rs cid with
      | some (inv, rs') => some (inv, r :: rs')
      | none => none

/-- An incoming interaction: its `customId` (`none` models an event
without the field). -/
structure Interaction where
  customId : Option JStr

/-- Observable outcome of one `handle` call: the returned boolean, which
handler (if any) was invoked with which params, whether the fallback ran,
and the route list afterwards. -/
structure HandleResult where
  retval : Bool
  invoked : Option (Nat × Params)
  fallbackRan : Bool
  routes : List Route

/-- `InteractionRouter.handle`: ignore events with a falsy customId,
otherwise dispatch to the first matching route (splicing `once` routes),
falling back to the fallback handler when no route matches. -/
def handle (router : Router) (i : Interaction) : HandleResult :=
  match i.customId with
  | none => ⟨false, none, false, router.routes⟩
  | some cid =>
    if cid.isEmpty then ⟨false, none, false, router.routes⟩
    else
      match handleLoop router.routes cid with
      | some (inv, rs') => ⟨true, some inv, false, rs'⟩
      | none =>
        match router.fallback with
        | some _ => ⟨false, none, true, router.routes⟩
        | none => ⟨false, none, false, router.routes⟩

/-!
## CooldownManager (src/unnamed/part_003, second module)

The store is the default in-memory JS `Map` from composite key to expiry
timestamp, modelled as an association list with unique keys in insertion
order.  `Date.now()` is passed in explicitly as `now`.  Thrown
`ForgeError`s are modelled by `ForgeErr`; the human-readable
`remainingText` produced by `formatMs` is presentation of the carried
`remaining` value and is not modelled separately.
-/

/-- Thrown `ForgeError`s of the verified core, with the data they carry. -/
inductive ForgeErr where
  | cooldownActive (remaining : Nat)
  | cooldownInvalidDuration
  | paginatorNoPages
  | paginatorInvalidPage
  | confirmationTimedOut
deriving Repr, DecidableEq

/-- The cooldown store: key to expiry timestamp. -/
abbrev Store := List (JStr × Nat)

/-- `Map.prototype.get` on the store. -/
def storeGet (st : Store) (k : JStr) : Option Nat :=
  (st.find? (fun e => e.1 = k)).map Prod.snd

/-- `Map.prototype.set` on the store: update in place when the key is
present, append otherwise. -/
def storeSet (st : Store) (k : JStr) (v : Nat) : Store :=
  if st.any (fun e => e.1 = k) then st.map (fun e => if e.1 = k then (k, v) else e)
  else st ++ [(k, v)]

/-- `CooldownManager._key`: `` `${this._prefix}${command}:${entityId}` ``. -/
def cdKey (pfx command entityId : JStr) : JStr := pfx ++ command ++ ':' :: entityId

/-- The object returned by `check` (`remainingText` omitted, see above). -/
structure CooldownResult where
  onCooldown : Bool
  remaining : Nat
  expiry : Option Nat
deriving Repr, DecidableEq

/-- Manager state: the store and the key pfx (`_prefix`, default
`"forge:cd:"`). -/
structure CooldownManager where
  store : Store
  pfx : JStr
deriving Repr, DecidableEq

/-- `CooldownManager.check`: pure read.  `!expiry` in JS is true both for a
missing entry and for a stored `0`, hence the extra `expiry = 0` disjunct. -/
def CooldownManager.check (m : CooldownManager) (command entityId : JStr) (now : Nat) :
    CooldownResult :=
  match storeGet m.store (cdKey m.pfx command entityId) with
  | none => ⟨false, 0, none⟩
  | some expiry =>
    if expiry = 0 ∨ expiry ≤ now then ⟨false, 0, none⟩
    else ⟨true, expiry - now, some expiry⟩

/-- `CooldownManager.set`: rejects non-positive durations, otherwise stores
`now + durationMs` and returns the expiry.  The pair carries the manager
state after the call (unchanged when an error is thrown). -/
def CooldownManager.set (m : CooldownManager) (command entityId : JStr) (now : Nat)
    (durationMs : Int) : Except ForgeErr Nat × CooldownManager :=
  if durationMs ≤ 0 then (.error .cooldownInvalidDuration, m)
  else
    let expiry := now + durationMs.toNat
    (.ok expiry, ⟨storeSet m.store (cdKey m.pfx command entityId) expiry, m.pfx⟩)

/-- `CooldownManager.use`: check, then set; throws COOLDOWN_ACTIVE with the
remaining time when on cooldown.  The pair carries the manager state after
the call (unchanged when an error is thrown). -/
def CooldownManager.use (m : CooldownManager) (command entityId : JStr) (now : Nat)
    (durationMs : Int) : Except ForgeErr Unit × CooldownManager :=
  let result := m.check command entityId now
  if result.onCooldown then (.error (.cooldownActive result.remaining), m)
  else
    let r := m.set command entityId now durationMs
    (r.1.map (fun _ => ()), r.2)

/-- The sweep loop over the store entries: delete every entry with
`now >= expiry`, count the deletions. -/
def sweepStore (now : Nat) : Store → Nat × Store
  | [] => (0, [])
  | (k, expiry) :: rest =>
    let r := sweepStore now rest
    if expiry ≤ now then (r.1 + 1, r.2) else (r.1, (k, expiry) :: r.2)

/-- `CooldownManager.sweep`: remove expired entries, return the removed
count and the manager state afterwards. -/
def CooldownManager.sweep (m : CooldownManager) (now : Nat) : Nat × CooldownManager :=
  let r := sweepStore now m.store
  (r.1, ⟨r.2, m.pfx⟩)

/-!
## Paginator (src/unnamed/part_002, third module)

Only the cursor state machine is in scope of the claims: the constructor
validation, `goTo`, and the collector's `collect` switch.  Page payloads
are abstract (`α`); the cursor is a JS number, kept as `Int` because the
constructor stores `options.startPage` without validation.
-/

/-- Paginator state: the page list and the cursor `_current`. -/
structure Paginator (α : Type) where
  pages : List α
  current : Int
deriving Repr, DecidableEq

/-- The `Paginator` constructor: `if (!pages?.length) throw NO_PAGES`,
then `_current = options.startPage ?? 0` with no range check.  `none`
models a missing `pages` argument. -/
def Paginator.construct {α : Type} (pages : Option (List α)) (startPage : Option Int) :
    Except ForgeErr (Paginator α) :=
  match pages with
  | none => .error .paginatorNoPages
  | some ps =>
    if ps.length = 0 then .error .paginatorNoPages
    else .ok ⟨ps, startPage.getD 0⟩

/-- `Paginator.goTo`: `if (index < 0 || index >= this._pages.length) throw
INVALID_PAGE`, else set the cursor. -/
def Paginator.goTo {α : Type} (p : Paginator α) (index : Int) :
    Except ForgeErr (Paginator α) :=
  if index < 0 ∨ (p.pages.length : Int) ≤ index then .error .paginatorInvalidPage
  else .ok { p with current := index }

/-- The `NAV_ID` button customIds. -/
def NAV_FIRST : JStr := "forge_page_first".data
def NAV_PREV : JStr := "forge_page_prev".data
def NAV_NEXT : JStr := "forge_page_next".data
def NAV_LAST : JStr := "forge_page_last".data
def NAV_STOP : JStr := "forge_page_stop".data

/-- The `collect` handler switch of `_startCollector`: new paginator state
and whether the collector was stopped by the stop button. -/
def collectStep {α : Type} (p : Paginator α) (btnId : JStr) : Paginator α × Bool :=
  if btnId = NAV_FIRST then ({ p with current := 0 }, false)
  else if btnId = NAV_PREV then ({ p with current := max 0 (p.current - 1) }, false)
  else if btnId = NAV_NEXT then
    ({ p with current := min ((p.pages.length : Int) - 1) (p.current + 1) }, false)
  else if btnId = NAV_LAST then ({ p with current := (p.pages.length : Int) - 1 }, false)
  else if btnId = NAV_STOP then (p, true)
  else (p, false)

/-!
## ConfirmationManager (src/src/confirmations/ConfirmationManager.mjs)

One `ask` session is determined by the owner identity, the two nonce-tagged
button ids, the timeout, and the chronologically ordered stream of button
clicks on the prompt message.  The discord.js collector itself is external
to the repository; its documented `time`/`max: 1` semantics (spec sections
4.4 and 6) are modelled as: the first click within the window that passes
the session's filter is collected and ends the collector with reason
`limit`; if none arrives the collector ends with reason `time`.  `ask`'s
own code (the filter, the `collect` handler resolving
`btn.customId === yesId`, and the `end` handler rejecting with
CONFIRMATION_TIMED_OUT for any reason other than `limit`) is translated
directly.
-/

/-- One button click on the prompt message. -/
structure Click where
  userId : JStr
  customId : JStr
  time : Nat
deriving Repr, DecidableEq

/-- The collector filter in `ask`: the click must come from the asking
user and hit one of this session's two buttons; non-owner clicks get an
ephemeral notice and are not collected. -/
def confFilter (ownerId yesId noId : JStr) (c : Click) : Bool :=
  (c.userId = ownerId) && (c.customId = yesId || c.customId = noId)

/-- Outcome of one `ask` session for a given click stream: `true` when the
collected click is the confirm button, `false` when it is the cancel
button, CONFIRMATION_TIMED_OUT when no qualifying click arrives within the
window. -/
def askOutcome (ownerId yesId noId : JStr) (timeout : Nat) (clicks : List Click) :
    Except ForgeErr Bool :=
  match clicks.find? (fun c => decide (c.time < timeout) && confFilter ownerId yesId noId c) with
  | some c => .ok (c.customId = yesId)
  | none => .error .confirmationTimedOut

/-- A raw-regex matcher behaving like `/^(a*)(?<wildcard>b*)c$/`: against
`"ac"` it yields `match[1] = "a"` (first positional group) and a named
group `wildcard` that captured the empty string. -/
def cxExec : JStr → Option MatchRes := fun s =>
  if s = "ac".data then
    some ⟨[some ("a".data), some []], some [("wildcard".data, some [])]⟩
  else none

/-!
## Helper lemmas
-/

theorem globTry_succ (next : JStr → Option (List JStr)) (lit t : JStr) (n : Nat) :
    globTry next lit t (n + 1) =
      (if (t.take (n + 1)).all jsDot && lit.isPrefixOf (t.drop (n + 1)) then
         match next ((t.drop (n + 1)).drop lit.length) with
         | some caps => some (t.take (n + 1) :: caps)
         | none => globTry next lit t n
       else globTry next lit t n) := by
  rw [globTry]

/-- Greedy matching of `(.+)_b$` against `X ++ "_b"`: the capture is
exactly `X`, for any non-empty `X` free of line terminators. -/
theorem globCaps_ab (X : JStr) (hX : X ≠ []) (hA : X.all jsDot = true) :
    globCaps [['_','b']] (X ++ ['_','b']) = some [X] := by
  obtain ⟨c, X', rfl⟩ := List.exists_cons_of_ne_nil hX
  have hlen : (c :: X').length = X'.length + 1 := by simp
  have h2 : ((c :: X') ++ ['_','b']).drop (X'.length + 3) = ([] : JStr) := by
    have := @List.drop_append Char (c :: X') (['_','b'] : JStr) 2
    simp only [hlen] at this
    simpa [Nat.add_assoc] using this
  have h1 : ((c :: X') ++ ['_','b']).drop (X'.length + 2) = (['b'] : JStr) := by
    have := @List.drop_append Char (c :: X') (['_','b'] : JStr) 1
    simp only [hlen] at this
    simpa [Nat.add_assoc] using this
  have h0 : ((c :: X') ++ ['_','b']).drop (X'.length + 1) = (['_','b'] : JStr) := by
    have := List.drop_left (c :: X') (['_','b'] : JStr)
    simpa [hlen] using this
  have ht : ((c :: X') ++ ['_','b']).take (X'.length + 1) = c :: X' := by
    have := List.take_left (c :: X') (['_','b'] : JStr)
    simpa [hlen] using this
  rw [globCaps]
  have hL : ((c :: X') ++ ['_','b']).length = (X'.length + 2) + 1 := by
    simp [hlen]
  rw [hL, globTry_succ]
  have e23 : (X'.length + 2) + 1 = X'.length + 3 := by omega
  rw [e23, h2]
  have hp2 : (['_','b'] : JStr).isPrefixOf [] = false := by decide
  rw [hp2, Bool.and_false]
  simp only [Bool.false_eq_true, if_false]
  rw [globTry_succ, h1]
  have hp1 : (['_','b'] : JStr).isPrefixOf ['b'] = false := by decide
  rw [hp1, Bool.and_false]
  simp only [Bool.false_eq_true, if_false]
  rw [globTry_succ, h0]
  have hp0 : (['_','b'] : JStr).isPrefixOf ['_','b'] = true := by decide
  rw [hp0, Bool.and_true, ht, hA]
  simp only [if_true]
  have hd : ((['_','b'] : JStr).drop (['_','b'] : JStr).length) = ([] : JStr) := rfl
  rw [hd]
  have hg : globCaps ([] : List JStr) ([] : JStr) = some [] := rfl
  rw [hg]

/-- The compiled `"a_*_b"` route matches `"a_" ++ X ++ "_b"` with the
single capture `X`, for `X` non-empty and free of line terminators. -/
theorem exec_ab (X : JStr) (hX : X ≠ []) (hA : X.all jsDot = true) :
    (mkStrRoute ("a_*_b".data) 0 false).compiled.exec ('a' :: '_' :: (X ++ ['_','b'])) =
      some ⟨[some X], none⟩ := by
  show (globExec (splitStar ("a_*_b".data)) ('a' :: '_' :: (X ++ ['_','b']))).map
      (fun caps => MatchRes.mk (caps.map some) none) = some ⟨[some X], none⟩
  have hsegs : splitStar ("a_*_b".data) = [['a','_'], ['_','b']] := rfl
  rw [hsegs]
  show (if (['a','_'] : JStr).isPrefixOf ('a' :: '_' :: (X ++ ['_','b'])) then
      globCaps [['_','b']] (('a' :: '_' :: (X ++ ['_','b'])).drop (['a','_'] : JStr).length)
    else none).map (fun caps => MatchRes.mk (caps.map some) none) = some ⟨[some X], none⟩
  have hpre : (['a','_'] : JStr).isPrefixOf ('a' :: '_' :: (X ++ ['_','b'])) = true := by
    simp [List.isPrefixOf]
  rw [hpre]
  simp only [if_true]
  have hdrop : ('a' :: '_' :: (X ++ ['_','b'])).drop (['a','_'] : JStr).length = X ++ ['_','b'] := rfl
  rw [hdrop, globCaps_ab X hX hA]
  rfl

/-- The handler found by the dispatch loop is the one of the first route
whose compiled matcher matches. -/
theorem handleLoop_first_match (rs : List Route) (cid : JStr) :
    (handleLoop rs cid).map (fun x => x.1.1) =
      (rs.find? (fun r => (r.compiled.exec cid).isSome)).map Route.handler := by
  induction rs with
  | nil => rfl
  | cons r rs ih =>
    simp only [handleLoop]
    cases h : r.compiled.exec cid with
    | some m => simp [List.find?, h]
    | none =>
      simp only [List.find?, h, Option.isSome_none, Bool.false_eq_true, if_false]
      rw [← ih]
      cases handleLoop rs cid <;> simp

/-- Routes that do not match are skipped by the dispatch loop and kept in
the post-dispatch route list. -/
theorem handleLoop_append_noMatch (rs₁ rs : List Route) (cid : JStr)
    (h : rs₁.all (fun q => (q.compiled.exec cid).isNone) = true) :
    handleLoop (rs₁ ++ rs) cid = (handleLoop rs cid).map (fun x => (x.1, rs₁ ++ x.2)) := by
  induction rs₁ with
  | nil =>
    cases hL : handleLoop rs cid <;> simp [hL]
  | cons q qs ih =>
    simp only [List.all_cons, Bool.and_eq_true] at h
    have hq : q.compiled.exec cid = none := by
      cases hqq : q.compiled.exec cid with
      | none => rfl
      | some m => rw [hqq] at h; simp at h
    rw [List.cons_append]
    simp only [handleLoop, hq]
    rw [ih h.2]
    cases handleLoop rs cid <;> rfl

/-- The dispatch loop finds nothing exactly when no route matches. -/
theorem handleLoop_eq_none_iff (rs : List Route) (cid : JStr) :
    handleLoop rs cid = none ↔ rs.all (fun q => (q.compiled.exec cid).isNone) = true := by
  induction rs with
  | nil => simp [handleLoop]
  | cons r rs ih =>
    simp only [handleLoop, List.all_cons, Bool.and_eq_true]
    cases h : r.compiled.exec cid with
    | some m => simp [h]
    | none =>
      simp only [h, Option.isNone_none, true_and]
      rw [← ih]
      cases handleLoop rs cid <;> simp

theorem find?_map_overwrite (k : JStr) (v : Option JStr) (ps : Params)
    (h : ps.any (fun q => q.1 = k) = true) :
    (ps.map (fun q => if q.1 = k then (k, v) else q)).find? (fun q => q.1 = k) = some (k, v) := by
  induction ps with
  | nil => simp at h
  | cons q qs ih =>
    by_cases hq : q.1 = k
    · simp [List.find?, hq]
    · simp only [List.any_cons, Bool.or_eq_true, decide_eq_true_eq] at h
      rcases h with h | h
      · exact absurd h hq
      · simp only [List.map_cons, if_neg hq, List.find?]
        have hd : (decide (q.1 = k)) = false := by simpa using hq
        simp only [hd]
        exact ih h

/-- Writing a property on a JS object makes it readable back. -/
theorem lookupProp_setProp (ps : Params) (k : JStr) (v : Option JStr) :
    lookupProp (setProp ps k v) k = some v := by
  unfold setProp lookupProp
  by_cases h : ps.any (fun q => q.1 = k) = true
  · rw [if_pos h, find?_map_overwrite k v ps h]
    rfl
  · rw [if_neg h]
    rw [List.find?_append]
    have hnone : ps.find? (fun q => q.1 = k) = none := by
      rw [List.find?_eq_none]
      intro x hx hpx
      exact h (List.any_eq_true.mpr ⟨x, hx, hpx⟩)
    rw [hnone]
    simp [List.find?]

theorem storeFind_map_overwrite (k : JStr) (v : Nat) (st : Store)
    (h : st.any (fun e => e.1 = k) = true) :
    (st.map (fun e => if e.1 = k then (k, v) else e)).find? (fun e => e.1 = k) = some (k, v) := by
  induction st with
  | nil => simp at h
  | cons e rest ih =>
    by_cases he : e.1 = k
    · simp [List.find?, he]
    · simp only [List.any_cons, Bool.or_eq_true, decide_eq_true_eq] at h
      rcases h with h | h
      · exact absurd h he
      · simp only [List.map_cons, if_neg he, List.find?]
        have hd : (decide (e.1 = k)) = false := by simpa using he
        simp only [hd]
        exact ih h

/-- `Map.set` followed by `Map.get` on the same key yields the new value. -/
theorem storeGet_storeSet (st : Store) (k : JStr) (v : Nat) :
    storeGet (storeSet st k v) k = some v := by
  unfold storeSet storeGet
  by_cases h : st.any (fun e => e.1 = k) = true
  · rw [if_pos h, storeFind_map_overwrite k v st h]
    rfl
  · rw [if_neg h]
    rw [List.find?_append]
    have hnone : st.find? (fun e => e.1 = k) = none := by
      rw [List.find?_eq_none]
      intro x hx hpx
      exact h (List.any_eq_true.mpr ⟨x, hx, hpx⟩)
    rw [hnone]
    simp [List.find?]

/-!
## Claim theorems
-/

/-- Claim C1 — For every router state and dispatched identifier, `handle`
tests the registered routes in registration order and invokes the handler
of the first route whose compiled matcher matches; in particular,
registering `"page_*"` then `"page_1"` makes dispatch of `"page_1"` invoke
the wildcard route's handler, and the reverse registration order invokes
the exact route's handler. -/
theorem router_first_match_wins :
    (∀ (rs : List Route) (fb : Option Nat) (cid : JStr), cid ≠ [] →
       (handle ⟨rs, fb⟩ ⟨some cid⟩).invoked.map Prod.fst =
         (rs.find? (fun r => (r.compiled.exec cid).isSome)).map Route.handler)
    ∧ (handle ⟨[mkStrRoute ("page_*".data) 0 false, mkStrRoute ("page_1".data) 1 false], none⟩
         ⟨some ("page_1".data)⟩).invoked.map Prod.fst = some 0
    ∧ (handle ⟨[mkStrRoute ("page_1".data) 1 false, mkStrRoute ("page_*".data) 0 false], none⟩
         ⟨some ("page_1".data)⟩).invoked.map Prod.fst = some 1 := by
  refine ⟨?_, by decide, by decide⟩
  intro rs fb cid hcid
  have hE : cid.isEmpty = false := by
    cases cid with
    | nil => exact absurd rfl hcid
    | cons a l => rfl
  simp only [handle, hE, Bool.false_eq_true, if_false]
  have hmain := handleLoop_first_match rs cid
  cases hL : handleLoop rs cid with
  | some v =>
    rw [hL] at hmain
    simpa using hmain
  | none =>
    rw [hL] at hmain
    cases fb <;> simpa using hmain

/-- Witness for C1: the first-match law applied to a concrete router. -/
theorem router_first_match_wins_w :
    (handle ⟨[mkStrRoute ("x".data) 3 false], none⟩ ⟨some ("x".data)⟩).invoked.map Prod.fst =
      ([mkStrRoute ("x".data) 3 false].find?
        (fun r => (r.compiled.exec ("x".data)).isSome)).map Route.handler :=
  router_first_match_wins.1 [mkStrRoute ("x".data) 3 false] none ("x".data) (by decide)

/-- Claim C2 — Compiling a `*` wildcard yields a greedy one-or-more
capture anchored to a full-string match, where each captured character is
a JS dot character (the compiled regex has no `s` flag, so line
terminators are excluded): for the route `"a_*_b"`, dispatching
`"a_" ++ X ++ "_b"` for any non-empty `X` of dot characters — in
particular `"a_X_b"` — invokes the handler with `wildcard == X`, while
`"a__b"` (empty middle), `"a_b"` (no middle), and a line-terminator
middle do not match that route. -/
theorem glob_wildcard_one_or_more :
    (∀ X : JStr, X ≠ [] → X.all jsDot = true →
       handle ⟨[mkStrRoute ("a_*_b".data) 0 false], none⟩
           ⟨some ("a_".data ++ X ++ "_b".data)⟩ =
         ⟨true, some (0, [("wildcard".data, some X)]), false,
          [mkStrRoute ("a_*_b".data) 0 false]⟩)
    ∧ handle ⟨[mkStrRoute ("a_*_b".data) 0 false], none⟩ ⟨some ("a_X_b".data)⟩ =
        ⟨true, some (0, [("wildcard".data, some ("X".data))]), false,
         [mkStrRoute ("a_*_b".data) 0 false]⟩
    ∧ (handle ⟨[mkStrRoute ("a_*_b".data) 0 false], none⟩ ⟨some ("a__b".data)⟩).invoked = none
    ∧ (handle ⟨[mkStrRoute ("a_*_b".data) 0 false], none⟩ ⟨some ("a__b".data)⟩).retval = false
    ∧ (handle ⟨[mkStrRoute ("a_*_b".data) 0 false], none⟩ ⟨some ("a_b".data)⟩).invoked = none
    ∧ (handle ⟨[mkStrRoute ("a_*_b".data) 0 false], none⟩ ⟨some ("a_b".data)⟩).retval = false
    ∧ (handle ⟨[mkStrRoute ("a_*_b".data) 0 false], none⟩
        ⟨some ("a_".data ++ ['\n'] ++ "_b".data)⟩).invoked = none := by
  refine ⟨?_, by rfl, by decide, by decide, by decide, by decide, by decide⟩
  intro X hX hA
  have hcid : ("a_".data ++ X ++ "_b".data) = 'a' :: '_' :: (X ++ ['_','b']) := rfl
  rw [hcid]
  have hloop : handleLoop [mkStrRoute ("a_*_b".data) 0 false] ('a' :: '_' :: (X ++ ['_','b'])) =
      some ((0, [("wildcard".data, some X)]), [mkStrRoute ("a_*_b".data) 0 false]) := by
    simp only [handleLoop, exec_ab X hX hA]
    rfl
  simp only [handle, hloop]
  rfl

/-- Witness for C2: the wildcard law applied at `X = "X"`. -/
theorem glob_wildcard_one_or_more_w :
    handle ⟨[mkStrRoute ("a_*_b".data) 0 false], none⟩
        ⟨some ("a_".data ++ "X".data ++ "_b".data)⟩ =
      ⟨true, some (0, [("wildcard".data, some ("X".data))]), false,
       [mkStrRoute ("a_*_b".data) 0 false]⟩ :=
  glob_wildcard_one_or_more.1 ("X".data) (by decide) (by decide)

/-- Claim C6 — A route registered with `once` is removed from the route
list when it fires: the first matching dispatch invokes its handler and
deletes it, so a second dispatch of the same identifier falls through to
later routes or the fallback. -/
theorem once_route_removed :
    (∀ (rs₁ rs₂ : List Route) (r : Route) (fb : Option Nat) (cid : JStr),
       cid ≠ [] →
       rs₁.all (fun q => (q.compiled.exec cid).isNone) = true →
       (r.compiled.exec cid).isSome = true →
       r.once = true →
       (handle ⟨rs₁ ++ r :: rs₂, fb⟩ ⟨some cid⟩).invoked.map Prod.fst = some r.handler
       ∧ (handle ⟨rs₁ ++ r :: rs₂, fb⟩ ⟨some cid⟩).routes = rs₁ ++ rs₂)
    ∧ (handle ⟨[mkStrRoute ("a".data) 0 true, mkStrRoute ("a".data) 1 false], none⟩
         ⟨some ("a".data)⟩).invoked.map Prod.fst = some 0
    ∧ (handle ⟨(handle ⟨[mkStrRoute ("a".data) 0 true, mkStrRoute ("a".data) 1 false], none⟩
         ⟨some ("a".data)⟩).routes, none⟩ ⟨some ("a".data)⟩).invoked.map Prod.fst = some 1
    ∧ (handle ⟨(handle ⟨[mkStrRoute ("a".data) 0 true], some 9⟩ ⟨some ("a".data)⟩).routes,
         some 9⟩ ⟨some ("a".data)⟩).fallbackRan = true
    ∧ (handle ⟨(handle ⟨[mkStrRoute ("a".data) 0 true], some 9⟩ ⟨some ("a".data)⟩).routes,
         some 9⟩ ⟨some ("a".data)⟩).retval = false := by
  refine ⟨?_, by decide, by decide, by decide, by decide⟩
  intro rs₁ rs₂ r fb cid hcid h1 hr ho
  have hE : cid.isEmpty = false := by
    cases cid with
    | nil => exact absurd rfl hcid
    | cons a l => rfl
  obtain ⟨m, hm⟩ := Option.isSome_iff_exists.mp hr
  have hloop : handleLoop (rs₁ ++ r :: rs₂) cid =
      some ((r.handler, mkParams m), rs₁ ++ rs₂) := by
    rw [handleLoop_append_noMatch rs₁ (r :: rs₂) cid h1]
    simp only [handleLoop, hm, ho, if_true]
    rfl
  refine ⟨?_, ?_⟩ <;>
      simp only [handle, hE, Bool.false_eq_true, if_false, hloop] <;> rfl

/-- Witness for C6: a single `once` route is gone after it fires. -/
theorem once_route_removed_w :
    (handle ⟨[mkStrRoute ("a".data) 0 true], none⟩ ⟨some ("a".data)⟩).invoked.map Prod.fst =
      some 0
    ∧ (handle ⟨[mkStrRoute ("a".data) 0 true], none⟩ ⟨some ("a".data)⟩).routes = [] :=
  once_route_removed.1 [] [] (mkStrRoute ("a".data) 0 true) none ("a".data)
    (by decide) rfl (by decide) rfl

/-- Claim C9 — `handle` returns false without any invocation when the
event has no (or an empty) identifier; when no route matches it returns
false, running the fallback exactly when one is set; when a route matches
it returns true. -/
theorem handle_no_match_outcomes :
    (∀ (rs : List Route) (fb : Option Nat),
       handle ⟨rs, fb⟩ ⟨none⟩ = ⟨false, none, false, rs⟩
       ∧ handle ⟨rs, fb⟩ ⟨some []⟩ = ⟨false, none, false, rs⟩)
    ∧ (∀ (rs : List Route) (t : Nat) (cid : JStr), cid ≠ [] →
       rs.all (fun q => (q.compiled.exec cid).isNone) = true →
       handle ⟨rs, some t⟩ ⟨some cid⟩ = ⟨false, none, true, rs⟩)
    ∧ (∀ (rs : List Route) (cid : JStr), cid ≠ [] →
       rs.all (fun q => (q.compiled.exec cid).isNone) = true →
       handle ⟨rs, none⟩ ⟨some cid⟩ = ⟨false, none, false, rs⟩)
    ∧ (∀ (rs : List Route) (fb : Option Nat) (cid : JStr), cid ≠ [] →
       rs.all (fun q => (q.compiled.exec cid).isNone) = false →
       (handle ⟨rs, fb⟩ ⟨some cid⟩).retval = true) := by
  have hE : ∀ (cid : JStr), cid ≠ [] → cid.isEmpty = false := by
    intro cid hcid
    cases cid with
    | nil => exact absurd rfl hcid
    | cons a l => rfl
  refine ⟨fun rs fb => ⟨rfl, rfl⟩, ?_, ?_, ?_⟩
  · intro rs t cid hcid hall
    have hloop : handleLoop rs cid = none := (handleLoop_eq_none_iff rs cid).mpr hall
    simp only [handle, hE cid hcid, Bool.false_eq_true, if_false, hloop]
  · intro rs cid hcid hall
    have hloop : handleLoop rs cid = none := (handleLoop_eq_none_iff rs cid).mpr hall
    simp only [handle, hE cid hcid, Bool.false_eq_true, if_false, hloop]
  · intro rs fb cid hcid hall
    have hloop : handleLoop rs cid ≠ none := by
      rw [Ne, handleLoop_eq_none_iff, hall]
      simp
    obtain ⟨v, hv⟩ := Option.ne_none_iff_exists'.mp hloop
    simp only [handle, hE cid hcid, Bool.false_eq_true, if_false, hv]

/-- Witness for C9: no-match with a fallback runs the fallback and returns
false. -/
theorem handle_no_match_outcomes_w :
    handle ⟨[], some 4⟩ ⟨some ("z".data)⟩ = ⟨false, none, true, []⟩ :=
  handle_no_match_outcomes.2.1 [] 4 ("z".data) (by decide) rfl

/-- Counterexample to C10 as stated — a raw regex whose named group
`wildcard` captured the empty string (here `/^(a*)(?<wildcard>b*)c$/` on
`"ac"`): because `!params.wildcard` is true for the empty string, the
first positional capture `"a"` DOES overwrite the named group's value. -/
theorem wildcard_overwritten_cx :
    (handle ⟨[⟨.raw cxExec, 0, false⟩], none⟩ ⟨some ("ac".data)⟩).invoked =
      some (0, [("wildcard".data, some ("a".data))]) := by decide

/-- Claim C10 (amended) — For a raw-regex route: if the match has a
defined first positional capture and the named groups have no key
`wildcard` (including the no-named-groups case), `handle` passes the
positional capture under `wildcard`; a named group `wildcard` is preserved
when its captured value is non-empty (an absent, undefined or
empty-string value is overwritten, see the counterexample). -/
theorem wildcard_param_rule :
    (∀ (f : JStr → Option MatchRes) (tg : Nat) (cid : JStr) (m : MatchRes) (w : JStr),
       cid ≠ [] → f cid = some m → m.positional.head? = some (some w) →
       lookupProp (m.groups.getD []) ("wildcard".data) = none →
       (handle ⟨[⟨.raw f, tg, false⟩], none⟩ ⟨some cid⟩).invoked = some (tg, mkParams m)
       ∧ lookupProp (mkParams m) ("wildcard".data) = some (some w))
    ∧ (∀ (f : JStr → Option MatchRes) (tg : Nat) (cid : JStr) (m : MatchRes) (v : JStr),
       cid ≠ [] → f cid = some m →
       lookupProp (m.groups.getD []) ("wildcard".data) = some (some v) → v ≠ [] →
       (handle ⟨[⟨.raw f, tg, false⟩], none⟩ ⟨some cid⟩).invoked = some (tg, mkParams m)
       ∧ lookupProp (mkParams m) ("wildcard".data) = some (some v)) := by
  have hE : ∀ (cid : JStr), cid ≠ [] → cid.isEmpty = false := by
    intro cid hcid
    cases cid with
    | nil => exact absurd rfl hcid
    | cons a l => rfl
  have hinv : ∀ (f : JStr → Option MatchRes) (tg : Nat) (cid : JStr) (m : MatchRes),
      cid ≠ [] → f cid = some m →
      (handle ⟨[⟨.raw f, tg, false⟩], none⟩ ⟨some cid⟩).invoked = some (tg, mkParams m) := by
    intro f tg cid m hcid hf
    have hloop : handleLoop [⟨.raw f, tg, false⟩] cid =
        some ((tg, mkParams m), [⟨.raw f, tg, false⟩]) := by
      simp only [handleLoop, Compiled.exec, hf]
      rfl
    simp only [handle, hE cid hcid, Bool.false_eq_true, if_false, hloop]
  constructor
  · intro f tg cid m w hcid hf hpos hgrp
    refine ⟨hinv f tg cid m hcid hf, ?_⟩
    rw [show ("wildcard".data : JStr) = ['w','i','l','d','c','a','r','d'] from rfl] at hgrp ⊢
    simp only [mkParams, hpos]
    have hc : jsFalsy (lookupProp (m.groups.getD []) (['w','i','l','d','c','a','r','d'])) = true := by
      rw [hgrp]
      rfl
    rw [if_pos hc]
    exact lookupProp_setProp _ _ _
  · intro f tg cid m v hcid hf hgrp hv
    refine ⟨hinv f tg cid m hcid hf, ?_⟩
    rw [show ("wildcard".data : JStr) = ['w','i','l','d','c','a','r','d'] from rfl] at hgrp ⊢
    cases hpos : m.positional.head? with
    | none => simp only [mkParams, hpos]; exact hgrp
    | some o =>
      cases o with
      | none => simp only [mkParams, hpos]; exact hgrp
      | some w =>
        simp only [mkParams, hpos]
        have hc : jsFalsy (lookupProp (m.groups.getD []) (['w','i','l','d','c','a','r','d'])) = false := by
          rw [hgrp]
          cases v with
          | nil => exact absurd rfl hv
          | cons a l => rfl
        rw [if_neg (by simp [hc])]
        exact hgrp

/-- Witness for C10: a raw matcher with one positional capture and no
named groups gets the capture as `wildcard`. -/
theorem wildcard_param_rule_w :
    ((handle ⟨[⟨.raw (fun _ => some ⟨[some ("x".data)], none⟩), 2, false⟩], none⟩
        ⟨some ("q".data)⟩).invoked = some (2, mkParams ⟨[some ("x".data)], none⟩))
    ∧ lookupProp (mkParams ⟨[some ("x".data)], none⟩) ("wildcard".data) =
        some (some ("x".data)) :=
  wildcard_param_rule.1 (fun _ => some ⟨[some ("x".data)], none⟩) 2 ("q".data)
    ⟨[some ("x".data)], none⟩ ("x".data) (by decide) rfl rfl rfl

/-- Counterexample to C3 as stated — with no active cooldown a
non-positive duration makes `use` throw COOLDOWN_INVALID_DURATION instead
of storing an expiry and returning normally. -/
theorem use_zero_duration_cx :
    CooldownManager.use ⟨[], "forge:cd:".data⟩ ("b".data) ("e".data) 5 0 =
      (.error .cooldownInvalidDuration, ⟨[], "forge:cd:".data⟩) := rfl

/-- Claim C3 (amended) — `use` throws COOLDOWN_ACTIVE carrying the
remaining time if and only if the stored expiry for the key is strictly
greater than the current time, leaving the store unchanged; otherwise,
provided the duration is positive, it stores `now + duration` and returns
normally (a non-positive duration instead throws
COOLDOWN_INVALID_DURATION, see the counterexample).  Consequently an
immediate second `use` of the same key fails, and a `use` at or after the
expiry instant succeeds. -/
theorem use_checks_then_sets :
    ∀ (m : CooldownManager) (command entityId : JStr) (now : Nat) (d : Int),
      (∀ e, storeGet m.store (cdKey m.pfx command entityId) = some e → now < e →
         m.use command entityId now d = (.error (.cooldownActive (e - now)), m))
      ∧ (0 < d →
         (∀ e, storeGet m.store (cdKey m.pfx command entityId) = some e → e ≤ now →
            m.use command entityId now d =
              (.ok (), ⟨storeSet m.store (cdKey m.pfx command entityId) (now + d.toNat), m.pfx⟩)))
      ∧ (0 < d →
         storeGet m.store (cdKey m.pfx command entityId) = none →
         m.use command entityId now d =
           (.ok (), ⟨storeSet m.store (cdKey m.pfx command entityId) (now + d.toNat), m.pfx⟩))
      ∧ (0 < d →
         (CooldownManager.use ⟨storeSet m.store (cdKey m.pfx command entityId) (now + d.toNat), m.pfx⟩
            command entityId now d).1 = .error (.cooldownActive d.toNat))
      ∧ (0 < d → ∀ now', now + d.toNat ≤ now' →
         CooldownManager.use ⟨storeSet m.store (cdKey m.pfx command entityId) (now + d.toNat), m.pfx⟩
            command entityId now' d =
           (.ok (), ⟨storeSet (storeSet m.store (cdKey m.pfx command entityId) (now + d.toNat))
              (cdKey m.pfx command entityId) (now' + d.toNat), m.pfx⟩)) := by
  intro m command entityId now d
  refine ⟨?_, ?_, ?_, ?_, ?_⟩
  · intro e he hlt
    have hchk : m.check command entityId now = ⟨true, e - now, some e⟩ := by
      simp only [CooldownManager.check, he]
      rw [if_neg (show ¬ (e = 0 ∨ e ≤ now) by omega)]
    simp only [CooldownManager.use, hchk]
    rw [if_pos trivial]
  · intro hd e he hle
    have hchk : m.check command entityId now = ⟨false, 0, none⟩ := by
      simp only [CooldownManager.check, he]
      rw [if_pos (Or.inr hle)]
    simp only [CooldownManager.use, hchk]
    simp only [CooldownManager.set]
    rw [if_neg (show ¬ d ≤ 0 by omega)]
    rfl
  · intro hd hnone
    have hchk : m.check command entityId now = ⟨false, 0, none⟩ := by
      simp only [CooldownManager.check, hnone]
    simp only [CooldownManager.use, hchk]
    simp only [CooldownManager.set]
    rw [if_neg (show ¬ d ≤ 0 by omega)]
    rfl
  · intro hd
    have hget := storeGet_storeSet m.store (cdKey m.pfx command entityId) (now + d.toNat)
    have hchk : CooldownManager.check
        ⟨storeSet m.store (cdKey m.pfx command entityId) (now + d.toNat), m.pfx⟩
        command entityId now = ⟨true, d.toNat, some (now + d.toNat)⟩ := by
      simp only [CooldownManager.check, hget]
      rw [if_neg (show ¬ (now + d.toNat = 0 ∨ now + d.toNat ≤ now) by omega)]
      congr 1
      omega
    simp only [CooldownManager.use, hchk]
    rw [if_pos trivial]
  · intro hd now' hnow'
    have hget := storeGet_storeSet m.store (cdKey m.pfx command entityId) (now + d.toNat)
    have hchk : CooldownManager.check
        ⟨storeSet m.store (cdKey m.pfx command entityId) (now + d.toNat), m.pfx⟩
        command entityId now' = ⟨false, 0, none⟩ := by
      simp only [CooldownManager.check, hget]
      rw [if_pos (Or.inr hnow')]
    simp only [CooldownManager.use, hchk]
    simp only [CooldownManager.set]
    rw [if_neg (show ¬ d ≤ 0 by omega)]
    rfl

/-- Witness for C3: a fresh `use` stores the expiry, an immediate repeat
fails with the remaining time. -/
theorem use_checks_then_sets_w :
    CooldownManager.use ⟨[], "forge:cd:".data⟩ ("b".data) ("e".data) 5 10 =
      (.ok (), ⟨storeSet [] (cdKey ("forge:cd:".data) ("b".data) ("e".data)) 15,
        "forge:cd:".data⟩)
    ∧ (CooldownManager.use
        ⟨storeSet [] (cdKey ("forge:cd:".data) ("b".data) ("e".data)) 15, "forge:cd:".data⟩
        ("b".data) ("e".data) 5 10).1 = .error (.cooldownActive 10) :=
  ⟨(use_checks_then_sets ⟨[], "forge:cd:".data⟩ ("b".data) ("e".data) 5 10).2.2.1
      (by decide) rfl,
   (use_checks_then_sets ⟨[], "forge:cd:".data⟩ ("b".data) ("e".data) 5 10).2.2.2.1
      (by decide)⟩

/-- Claim C5 — `sweep` removes exactly the entries whose expiry has
passed (`expiry <= now`), keeps every entry with `expiry > now`, returns
the removed count, and the store size shrinks by exactly that count. -/
theorem sweep_removes_exactly_expired :
    ∀ (m : CooldownManager) (now : Nat),
      (m.sweep now).2.store = m.store.filter (fun e => now < e.2)
      ∧ (m.sweep now).1 = (m.store.filter (fun e => e.2 ≤ now)).length
      ∧ (m.sweep now).2.store.length = m.store.length - (m.sweep now).1
      ∧ (m.sweep now).2.pfx = m.pfx := by
  have key : ∀ (now : Nat) (st : Store),
      (sweepStore now st).2 = st.filter (fun e => now < e.2)
      ∧ (sweepStore now st).1 = (st.filter (fun e => e.2 ≤ now)).length
      ∧ (sweepStore now st).2.length + (sweepStore now st).1 = st.length := by
    intro now st
    induction st with
    | nil => exact ⟨rfl, rfl, rfl⟩
    | cons e rest ih =>
      obtain ⟨h1, h2, h3⟩ := ih
      by_cases he : e.2 ≤ now
      · refine ⟨?_, ?_, ?_⟩
        · simp only [sweepStore, if_pos he]
          rw [List.filter_cons_of_neg (by simpa using show ¬ now < e.2 by omega)]
          exact h1
        · simp only [sweepStore, if_pos he]
          rw [List.filter_cons_of_pos (by simpa using he)]
          simp only [List.length_cons, h2]
        · simp only [sweepStore, if_pos he, List.length_cons]
          omega
      · refine ⟨?_, ?_, ?_⟩
        · simp only [sweepStore, if_neg he]
          rw [List.filter_cons_of_pos (by simpa using show now < e.2 by omega)]
          rw [h1]
        · simp only [sweepStore, if_neg he]
          rw [List.filter_cons_of_neg (by simpa using he)]
          exact h2
        · simp only [sweepStore, if_neg he, List.length_cons]
          omega
  intro m now
  obtain ⟨h1, h2, h3⟩ := key now m.store
  refine ⟨h1, h2, ?_, rfl⟩
  show (sweepStore now m.store).2.length = m.store.length - (sweepStore now m.store).1
  omega

/-- Claim C7 — `goTo(index)` throws INVALID_PAGE exactly when `index` is
outside `[0, N-1]` and otherwise sets the cursor to `index`; button
navigation clamps: `next` sets the cursor to `min(N-1, cursor+1)` (a no-op
at the last page) and `prev` sets it to `max(0, cursor-1)`. -/
theorem goTo_bounds_nav_clamp :
    ∀ {α : Type} (p : Paginator α) (index : Int),
      (p.goTo index = .error .paginatorInvalidPage ↔
        (index < 0 ∨ (p.pages.length : Int) ≤ index))
      ∧ (¬ (index < 0 ∨ (p.pages.length : Int) ≤ index) →
          p.goTo index = .ok ⟨p.pages, index⟩)
      ∧ ((collectStep p NAV_NEXT).1.current = min ((p.pages.length : Int) - 1) (p.current + 1))
      ∧ (p.current = (p.pages.length : Int) - 1 →
          (collectStep p NAV_NEXT).1.current = (p.pages.length : Int) - 1)
      ∧ ((collectStep p NAV_PREV).1.current = max 0 (p.current - 1)) := by
  intro α p index
  have hnext : collectStep p NAV_NEXT =
      ({ p with current := min ((p.pages.length : Int) - 1) (p.current + 1) }, false) := rfl
  have hprev : collectStep p NAV_PREV =
      ({ p with current := max 0 (p.current - 1) }, false) := rfl
  refine ⟨?_, ?_, ?_, ?_, ?_⟩
  · constructor
    · intro h
      by_cases hc : index < 0 ∨ (p.pages.length : Int) ≤ index
      · exact hc
      · rw [Paginator.goTo, if_neg hc] at h
        exact absurd h (by simp)
    · intro hc
      rw [Paginator.goTo, if_pos hc]
  · intro hc
    rw [Paginator.goTo, if_neg hc]
  · rw [hnext]
  · intro hcur
    rw [hnext]
    simp only []
    omega
  · rw [hprev]

/-- Witness for C7: in a two-page paginator `goTo 1` moves the cursor. -/
theorem goTo_bounds_nav_clamp_w :
    (⟨[7, 8], 0⟩ : Paginator Nat).goTo 1 = .ok ⟨[7, 8], 1⟩ :=
  (goTo_bounds_nav_clamp (⟨[7, 8], 0⟩ : Paginator Nat) 1).2.1 (by decide)

/-- Counterexample to C8 as stated — the constructor stores an
out-of-range starting index (5 with a single page) instead of rejecting
it. -/
theorem construct_out_of_range_start_cx :
    Paginator.construct (some [0]) (some 5) = .ok (⟨[0], 5⟩ : Paginator Nat) := rfl

/-- Claim C8 (amended) — construction fails with NO_PAGES exactly when the
page sequence is missing or empty; for a non-empty page list any starting
index (default 0) is accepted and stored as the initial cursor without a
range check (see the counterexample). -/
theorem construct_validates_pages_only :
    ∀ {α : Type} (pages : Option (List α)) (startPage : Option Int),
      (Paginator.construct pages startPage = .error .paginatorNoPages ↔
        (pages = none ∨ pages = some []))
      ∧ (∀ ps, pages = some ps → ps ≠ [] →
          Paginator.construct pages startPage = .ok ⟨ps, startPage.getD 0⟩) := by
  intro α pages startPage
  constructor
  · cases pages with
    | none => simp [Paginator.construct]
    | some ps =>
      cases ps with
      | nil => simp [Paginator.construct]
      | cons a l => simp [Paginator.construct]
  · intro ps hps hne
    subst hps
    cases ps with
    | nil => exact absurd rfl hne
    | cons a l => rfl

/-- Witness for C8: a one-page construction with the default start. -/
theorem construct_validates_pages_only_w :
    Paginator.construct (some [7]) none = .ok (⟨[7], 0⟩ : Paginator Nat) :=
  (construct_validates_pages_only (some [7]) none).2 [7] rfl (by decide)

/-- Claim C4 — One `ask` session has exactly one outcome, determined by
the first click within the timeout window that passes the owner-and-button
filter: it resolves `true` when that click is the confirm button, `false`
when it is the cancel button; with no qualifying click the call rejects
with CONFIRMATION_TIMED_OUT, and clicks from a non-owner identity never
resolve the session. -/
theorem ask_single_resolution :
    ∀ (ownerId yesId noId : JStr) (timeout : Nat) (clicks : List Click),
      (askOutcome ownerId yesId noId timeout clicks = .ok true ↔
        (∃ c, clicks.find?
            (fun c => decide (c.time < timeout) && confFilter ownerId yesId noId c) = some c
          ∧ c.customId = yesId))
      ∧ (yesId ≠ noId →
         (askOutcome ownerId yesId noId timeout clicks = .ok false ↔
          (∃ c, clicks.find?
              (fun c => decide (c.time < timeout) && confFilter ownerId yesId noId c) = some c
            ∧ c.customId = noId)))
      ∧ (askOutcome ownerId yesId noId timeout clicks = .error .confirmationTimedOut ↔
          clicks.find?
            (fun c => decide (c.time < timeout) && confFilter ownerId yesId noId c) = none)
      ∧ ((∀ c ∈ clicks, c.userId ≠ ownerId) →
          askOutcome ownerId yesId noId timeout clicks = .error .confirmationTimedOut)
      ∧ (∀ c, clicks.find?
            (fun c => decide (c.time < timeout) && confFilter ownerId yesId noId c) = some c →
          c.userId = ownerId ∧ c.time < timeout ∧ (c.customId = yesId ∨ c.customId = noId)) := by
  intro ownerId yesId noId timeout clicks
  refine ⟨?_, ?_, ?_, ?_, ?_⟩
  · constructor
    · intro h
      cases hf : clicks.find?
          (fun c => decide (c.time < timeout) && confFilter ownerId yesId noId c) with
      | none => rw [askOutcome, hf] at h; exact absurd h (by simp)
      | some c =>
        rw [askOutcome, hf] at h
        refine ⟨c, rfl, ?_⟩
        have : (decide (c.customId = yesId)) = true := by
          simpa using h
        simpa using this
    · rintro ⟨c, hf, hy⟩
      rw [askOutcome, hf]
      simp [hy]
  · intro hne
    constructor
    · intro h
      cases hf : clicks.find?
          (fun c => decide (c.time < timeout) && confFilter ownerId yesId noId c) with
      | none => rw [askOutcome, hf] at h; exact absurd h (by simp)
      | some c =>
        rw [askOutcome, hf] at h
        have hcy : (decide (c.customId = yesId)) = false := by
          simpa using h
        have hq := List.find?_some hf
        simp only [Bool.and_eq_true, decide_eq_true_eq, confFilter, Bool.or_eq_true] at hq
        refine ⟨c, rfl, ?_⟩
        rcases hq.2.2 with hcy' | hcn
        · rw [hcy'] at hcy; simp at hcy
        · exact hcn
    · rintro ⟨c, hf, hn⟩
      rw [askOutcome, hf]
      have : (c.customId = yesId) = False := by
        simp only [eq_iff_iff, iff_false]
        intro hcy
        exact hne (hcy.symm.trans hn)
      simp only [this]
      have hfb : (decide False) = false := by decide
      simp [hfb]
  · constructor
    · intro h
      cases hf : clicks.find?
          (fun c => decide (c.time < timeout) && confFilter ownerId yesId noId c) with
      | none => rfl
      | some c => rw [askOutcome, hf] at h; exact absurd h (by simp)
    · intro hf
      rw [askOutcome, hf]
  · intro hown
    have hf : clicks.find?
        (fun c => decide (c.time < timeout) && confFilter ownerId yesId noId c) = none := by
      rw [List.find?_eq_none]
      intro c hc h
      rw [Bool.and_eq_true] at h
      have h2 := h.2
      rw [confFilter, Bool.and_eq_true] at h2
      exact absurd (by simpa using h2.1) (hown c hc)
    rw [askOutcome, hf]
  · intro c hf
    have hq := List.find?_some hf
    simp only [Bool.and_eq_true, decide_eq_true_eq, confFilter, Bool.or_eq_true] at hq
    exact ⟨hq.2.1, hq.1, hq.2.2⟩

/-- Witness for C4: an owner confirm click within the window resolves
`true`. -/
theorem ask_single_resolution_w :
    askOutcome ("u".data) ("y".data) ("n".data) 100 [⟨"u".data, "y".data, 5⟩] = .ok true :=
  (ask_single_resolution ("u".data) ("y".data) ("n".data) 100
    [⟨"u".data, "y".data, 5⟩]).1.mpr ⟨⟨"u".data, "y".data, 5⟩, by decide, rfl⟩
